import Mathlib

/-!
A shallow embedding of `src/render/Renderer.js` (the Lance client-side
render-loop step scheduler).  JS numbers are modelled as exact rationals
(`ℚ`); the scheduler's temporal claims are about exact arithmetic on the
clock state.

The embedded code is the method `Renderer.runClientStep(t, dt)` together
with its caller `Renderer.draw(t, dt)`.  The mutable fields it touches
(`clientEngine.lastStepTime`, `clientEngine.correction`, `renderer.doReset`)
form the clock state; `clientEngine.options.stepPeriod` and
`clientEngine.options.scheduler` are read-only configuration.  Step-function
invocations (`clientEngine.step(time, dt, isProvisional?)`) and trace calls
(`gameEngine.trace.trace(...)`) are collected as lists of events, in
program order within each list.
-/

namespace Lance

/-- `TIME_RESET_THRESHOLD` from Renderer.js line 5. -/
def TIME_RESET_THRESHOLD : ℚ := 100

/-- One trace call made by `runClientStep`, identified by the message it
prints: `RESETTING`, `RENDERER DRAWING EXTRA` (catch-up loop body),
`RENDERER DRAWING NOSTEP` (early branch), `RENDERER DRAWING` (normal
branch, before the step), `RENDERER DONE` (normal branch, after the step). -/
inductive TraceEvent : Type
  | resetting
  | extra
  | nostep
  | drawing
  | done
deriving DecidableEq

/-- One invocation of the step-function collaborator
`clientEngine.step(time, dt, isProvisional)`.  The catch-up loop and the
normal branch omit the third argument (JS `undefined`, falsy), modelled as
`provisional = false`; the early branch passes `true`. -/
structure StepCall : Type where
  time : ℚ
  dt : ℚ
  provisional : Bool
deriving DecidableEq

/-- The mutable clock state read and written by `runClientStep`:
`clientEngine.lastStepTime`, `clientEngine.correction` and the renderer's
`doReset` flag (set by the external `client__stepReset` signal, cleared by
the scheduler). -/
structure ClientState : Type where
  lastStepTime : ℚ
  correction : ℚ
  doReset : Bool
deriving DecidableEq

/-- Result of one tick: the clock state after the call, the step-function
invocations made (in order), and the trace calls made (in order). -/
structure TickResult : Type where
  state : ClientState
  calls : List StepCall
  traces : List TraceEvent
deriving DecidableEq

/-- The catch-up loop of `runClientStep` (Renderer.js lines 79-85):

    while (t > lastStepTime + p) {
        step(lastStepTime + p, p + correction);
        lastStepTime += p;
        correction = 0;
    }

Returns the final `lastStepTime`, the final `correction`, and the step
calls made.  The source loop does not terminate when `p ≤ 0` and
`t > lastStepTime + p`; the extra `0 < p` conjunct in the guard makes the
Lean function total there, and every theorem about the loop assumes
`0 < p` (the spec requires `period > 0`). -/
def catchUpLoop (p t lst corr : ℚ) : ℚ × ℚ × List StepCall :=
  if h : t > lst + p ∧ 0 < p then
    let r := catchUpLoop p t (lst + p) 0
    (r.1, r.2.1, ⟨lst + p, p + corr, false⟩ :: r.2.2)
  else
    (lst, corr, [])
termination_by ⌈(t - lst) / p⌉.toNat
decreasing_by
  have hp : 0 < p := h.2
  have h1 : (1 : ℚ) < (t - lst) / p := by
    rw [lt_div_iff₀ hp]
    linarith [h.1]
  have h2 : (2 : ℤ) ≤ ⌈(t - lst) / p⌉ := by
    have := Int.lt_ceil.mpr (show ((1 : ℤ) : ℚ) < (t - lst) / p by exact_mod_cast h1)
    omega
  have h3 : (t - (lst + p)) / p = (t - lst) / p - 1 := by
    field_simp
    ring
  have h4 : ⌈(t - (lst + p)) / p⌉ = ⌈(t - lst) / p⌉ - 1 := by
    rw [h3, Int.ceil_sub_one]
  omega

/-- `runClientStep` after the reset check (Renderer.js lines 79-108): the
catch-up loop, then either the early/no-boundary branch

    if (t < lastStepTime) {
        dt = t - lastStepTime + correction;
        if (dt < 0) dt = 0;
        correction = lastStepTime - t;
        step(t, dt, true);
        return;
    }

or the normal render-controlled branch

    dt = t - lastStepTime + correction;
    lastStepTime += p;
    correction = lastStepTime - t;
    step(t, dt);

The loop emits one `extra` trace per iteration; the early branch emits
`nostep`; the normal branch emits `drawing` before the step and `done`
after it. -/
def runAfterReset (p : ℚ) (s : ClientState) (t dtHint : ℚ) : TickResult :=
  let r := catchUpLoop p t s.lastStepTime s.correction
  let lst := r.1
  let corr := r.2.1
  let calls := r.2.2
  let extraTraces := calls.map fun _ => TraceEvent.extra
  if t < lst then
    let dt0 := t - lst + corr
    let dt := if dt0 < 0 then 0 else dt0
    { state := ⟨lst, lst - t, s.doReset⟩
      calls := calls ++ [⟨t, dt, true⟩]
      traces := extraTraces ++ [TraceEvent.nostep] }
  else
    let dt := t - lst + corr
    { state := ⟨lst + p, lst + p - t, s.doReset⟩
      calls := calls ++ [⟨t, dt, false⟩]
      traces := extraTraces ++ [TraceEvent.drawing, TraceEvent.done] }

/-- `Renderer.runClientStep(t, dt)` (Renderer.js lines 67-108), with
`p = clientEngine.options.stepPeriod` passed explicitly.  The reset check
(line 70):

    if (this.doReset || t > this.clientEngine.lastStepTime + TIME_RESET_THRESHOLD) {
        this.doReset = false;
        this.clientEngine.lastStepTime = t - p / 2;
        this.clientEngine.correction = p / 2;
    }

then the loop and branches of `runAfterReset`.  The `dt` parameter
(`dtHint`) is overwritten before every read in the source, hence unused. -/
def runClientStep (p : ℚ) (s : ClientState) (t dtHint : ℚ) : TickResult :=
  if s.doReset = true ∨ t > s.lastStepTime + TIME_RESET_THRESHOLD then
    let r := runAfterReset p ⟨t - p / 2, p / 2, false⟩ t dtHint
    { r with traces := TraceEvent.resetting :: r.traces }
  else
    runAfterReset p s t dtHint

/-- Read-only configuration consulted by `Renderer.draw`:
`clientEngine.options.scheduler` and `clientEngine.options.stepPeriod`. -/
structure Options : Type where
  scheduler : String
  stepPeriod : ℚ
deriving DecidableEq

/-- `Renderer.draw(t, dt)` (Renderer.js lines 55-58):

    draw(t, dt) {
        if (this.clientEngine.options.scheduler === 'render-schedule')
            this.runClientStep(t, dt);
    }

In any other mode nothing runs: the state is returned unchanged and no
step or trace calls are made. -/
def draw (opts : Options) (s : ClientState) (t dtHint : ℚ) : TickResult :=
  if opts.scheduler = "render-schedule" then
    runClientStep opts.stepPeriod s t dtHint
  else
    { state := s, calls := [], traces := [] }

/-- A sequence of `draw`-scheduled ticks in render-schedule mode: fold
`runClientStep` over a list of timestamps (the `dtHint` argument is unused
by the source, passed as 0), collecting all step calls in order. -/
def runTicks (p : ℚ) (s : ClientState) : List ℚ → ClientState × List StepCall
  | [] => (s, [])
  | t :: ts =>
    let r := runClientStep p s t 0
    let rest := runTicks p r.state ts
    (rest.1, r.calls ++ rest.2)

/-- The catch-up loop with a fallible per-iteration collaborator
invocation: `failing c = true` means the effectful call of the iteration
that would record step call `c` fails (a throwing `clientEngine.step`, or
the iteration's preceding `trace` call on an absent trace collaborator).
The failure aborts the loop and propagates, exactly as a JS exception
leaves the `while` loop; iterations already completed keep their state
updates.  Same structure and termination argument as `catchUpLoop`. -/
def catchUpLoopE (failing : StepCall → Bool) (p t lst corr : ℚ) :
    Except Unit (ℚ × ℚ × List StepCall) :=
  if h : t > lst + p ∧ 0 < p then
    if failing ⟨lst + p, p + corr, false⟩ then
      Except.error ()
    else
      match catchUpLoopE failing p t (lst + p) 0 with
      | Except.error e => Except.error e
      | Except.ok r => Except.ok (r.1, r.2.1, ⟨lst + p, p + corr, false⟩ :: r.2.2)
  else
    Except.ok (lst, corr, [])
termination_by ⌈(t - lst) / p⌉.toNat
decreasing_by
  have hp : 0 < p := h.2
  have h1 : (1 : ℚ) < (t - lst) / p := by
    rw [lt_div_iff₀ hp]
    linarith [h.1]
  have h2 : (2 : ℤ) ≤ ⌈(t - lst) / p⌉ := by
    have := Int.lt_ceil.mpr (show ((1 : ℤ) : ℚ) < (t - lst) / p by exact_mod_cast h1)
    omega
  have h3 : (t - (lst + p)) / p = (t - lst) / p - 1 := by
    field_simp
    ring
  have h4 : ⌈(t - (lst + p)) / p⌉ = ⌈(t - lst) / p⌉ - 1 := by
    rw [h3, Int.ceil_sub_one]
  omega

/-- `runClientStep` with a step-function collaborator that may throw:
`throws time dt provisional = true` makes that `clientEngine.step` call
raise.  The source has no try/catch (Renderer.js lines 67-108), so the
exception aborts the tick and propagates to the caller of `draw`;
`Except.error ()` models that propagated failure. -/
def runClientStepE (throws : ℚ → ℚ → Bool → Bool) (p : ℚ) (s : ClientState)
    (t dtHint : ℚ) : Except Unit TickResult :=
  let fire := s.doReset = true ∨ t > s.lastStepTime + TIME_RESET_THRESHOLD
  let s1 : ClientState := if fire then ⟨t - p / 2, p / 2, false⟩ else s
  let rtrace : List TraceEvent := if fire then [TraceEvent.resetting] else []
  match catchUpLoopE (fun c => throws c.time c.dt c.provisional) p t
      s1.lastStepTime s1.correction with
  | Except.error e => Except.error e
  | Except.ok r =>
    let lst := r.1
    let corr := r.2.1
    let calls := r.2.2
    let extraTraces := calls.map fun _ => TraceEvent.extra
    if t < lst then
      let dt0 := t - lst + corr
      let dt := if dt0 < 0 then 0 else dt0
      if throws t dt true then
        Except.error ()
      else
        Except.ok
          { state := ⟨lst, lst - t, s1.doReset⟩
            calls := calls ++ [⟨t, dt, true⟩]
            traces := rtrace ++ extraTraces ++ [TraceEvent.nostep] }
    else
      let dt := t - lst + corr
      if throws t dt false then
        Except.error ()
      else
        Except.ok
          { state := ⟨lst + p, lst + p - t, s1.doReset⟩
            calls := calls ++ [⟨t, dt, false⟩]
            traces := rtrace ++ extraTraces ++ [TraceEvent.drawing, TraceEvent.done] }

/-- `runClientStep` with the trace collaborator (`gameEngine.trace`)
possibly absent.  Every branch of the source calls
`this.clientEngine.gameEngine.trace.trace(...)` unconditionally, before
the branch's step invocation; with the collaborator absent that call
itself throws (a TypeError in JS), aborting the tick.  `present = true`
threads every trace through; `present = false` fails at the first trace
call reached.  The loop reuses `catchUpLoopE`: each iteration's `trace`
call precedes its step call, so an absent collaborator fails the
iteration before the step is recorded, which is `catchUpLoopE` with the
constantly-`!present` failure predicate. -/
def runClientStepT (present : Bool) (p : ℚ) (s : ClientState)
    (t dtHint : ℚ) : Except Unit TickResult :=
  let fire := s.doReset = true ∨ t > s.lastStepTime + TIME_RESET_THRESHOLD
  let s1 : ClientState := if fire then ⟨t - p / 2, p / 2, false⟩ else s
  let rtrace : List TraceEvent := if fire then [TraceEvent.resetting] else []
  if fire ∧ present = false then
    Except.error ()
  else
    match catchUpLoopE (fun _ => !present) p t s1.lastStepTime s1.correction with
    | Except.error e => Except.error e
    | Except.ok r =>
      let lst := r.1
      let corr := r.2.1
      let calls := r.2.2
      let extraTraces := calls.map fun _ => TraceEvent.extra
      if t < lst then
        if present = false then
          Except.error ()
        else
          let dt0 := t - lst + corr
          let dt := if dt0 < 0 then 0 else dt0
          Except.ok
            { state := ⟨lst, lst - t, s1.doReset⟩
              calls := calls ++ [⟨t, dt, true⟩]
              traces := rtrace ++ extraTraces ++ [TraceEvent.nostep] }
      else
        if present = false then
          Except.error ()
        else
          let dt := t - lst + corr
          Except.ok
            { state := ⟨lst + p, lst + p - t, s1.doReset⟩
              calls := calls ++ [⟨t, dt, false⟩]
              traces := rtrace ++ extraTraces ++ [TraceEvent.drawing, TraceEvent.done] }

/-! ### Basic lemmas about the catch-up loop -/

/-- Unfolding the loop when the guard holds. -/
lemma catchUpLoop_pos {p t lst : ℚ} (corr : ℚ) (h1 : lst + p < t) (h2 : 0 < p) :
    catchUpLoop p t lst corr =
      ((catchUpLoop p t (lst + p) 0).1, (catchUpLoop p t (lst + p) 0).2.1,
        (⟨lst + p, p + corr, false⟩ : StepCall) :: (catchUpLoop p t (lst + p) 0).2.2) := by
  rw [catchUpLoop]
  simp only [dif_pos (And.intro h1 h2)]

/-- Unfolding the loop when the guard fails. -/
lemma catchUpLoop_neg {p t lst : ℚ} (corr : ℚ) (h : ¬(lst + p < t ∧ 0 < p)) :
    catchUpLoop p t lst corr = (lst, corr, []) := by
  rw [catchUpLoop]
  simp only [dif_neg h]

/-- Loop exit condition: on exit `t ≤ lastStepTime + p` (for `0 < p`). -/
lemma catchUpLoop_exit (p t lst corr : ℚ) (hp : 0 < p) :
    t ≤ (catchUpLoop p t lst corr).1 + p := by
  induction lst, corr using catchUpLoop.induct p t with
  | case1 lst corr hg ih =>
    rw [catchUpLoop_pos corr hg.1 hg.2]
    exact ih
  | case2 lst corr hg =>
    rw [catchUpLoop_neg corr hg]
    by_contra hc
    exact hg ⟨by dsimp at hc; linarith, hp⟩

/-- The loop never moves `lastStepTime` backwards (for `0 < p`). -/
lemma catchUpLoop_le (p t lst corr : ℚ) (hp : 0 < p) :
    lst ≤ (catchUpLoop p t lst corr).1 := by
  induction lst, corr using catchUpLoop.induct p t with
  | case1 lst corr hg ih =>
    rw [catchUpLoop_pos corr hg.1 hg.2]
    dsimp
    linarith [ih]
  | case2 lst corr hg =>
    rw [catchUpLoop_neg corr hg]

/-- The loop's final correction is the incoming one (zero iterations) or 0. -/
lemma catchUpLoop_corr (p t lst corr : ℚ) :
    (catchUpLoop p t lst corr).2.1 = corr ∨ (catchUpLoop p t lst corr).2.1 = 0 := by
  induction lst, corr using catchUpLoop.induct p t with
  | case1 lst corr hg ih =>
    rw [catchUpLoop_pos corr hg.1 hg.2]
    dsimp
    rcases ih with h | h
    · right; exact h
    · right; exact h
  | case2 lst corr hg =>
    rw [catchUpLoop_neg corr hg]
    left; rfl

/-- If the loop made no step call, it did not run: state unchanged and the
guard was false on entry. -/
lemma catchUpLoop_nil (p t lst corr : ℚ) (h : (catchUpLoop p t lst corr).2.2 = []) :
    (catchUpLoop p t lst corr).1 = lst ∧ (catchUpLoop p t lst corr).2.1 = corr ∧
      ¬(lst + p < t ∧ 0 < p) := by
  by_cases hg : lst + p < t ∧ 0 < p
  · rw [catchUpLoop_pos corr hg.1 hg.2] at h
    exact absurd h (List.cons_ne_nil _ _)
  · rw [catchUpLoop_neg corr hg]
    exact ⟨rfl, rfl, hg⟩

/-- If the loop made at least one step call, the final `lastStepTime` is
strictly below `t`: the early branch can never follow a nonempty burst. -/
lemma catchUpLoop_ne_nil (p t lst corr : ℚ) (h : (catchUpLoop p t lst corr).2.2 ≠ []) :
    (catchUpLoop p t lst corr).1 < t := by
  induction lst, corr using catchUpLoop.induct p t with
  | case1 lst corr hg ih =>
    rw [catchUpLoop_pos corr hg.1 hg.2]
    dsimp
    by_cases hnil : (catchUpLoop p t (lst + p) 0).2.2 = []
    · have hz := catchUpLoop_nil p t (lst + p) 0 hnil
      rw [hz.1]
      exact hg.1
    · exact ih hnil
  | case2 lst corr hg =>
    rw [catchUpLoop_neg corr hg] at h
    exact absurd rfl h

/-- Every `dt` emitted by the loop is `p + corr` (first iteration) or `p`
(later iterations); all are nonnegative when `0 ≤ corr` and `0 < p`. -/
lemma catchUpLoop_dt_nonneg (p t lst corr : ℚ) (hp : 0 < p) :
    0 ≤ corr → ∀ c ∈ (catchUpLoop p t lst corr).2.2, 0 ≤ c.dt := by
  induction lst, corr using catchUpLoop.induct p t with
  | case1 lst corr hg ih =>
    intro hc
    rw [catchUpLoop_pos corr hg.1 hg.2]
    intro c hc'
    rcases List.mem_cons.mp hc' with h | h
    · rw [h]
      dsimp
      linarith
    · exact ih (le_refl 0) c h
  | case2 lst corr hg =>
    intro hc
    rw [catchUpLoop_neg corr hg]
    intro c hc'
    exact absurd hc' (List.not_mem_nil c)

/-! ### Per-tick lemmas -/

/-- The loop and the two step branches never touch the `doReset` flag. -/
lemma runAfterReset_doReset (p : ℚ) (s : ClientState) (t dtHint : ℚ) :
    (runAfterReset p s t dtHint).state.doReset = s.doReset := by
  simp only [runAfterReset]
  split <;> rfl

/-- No trace after the reset check is the `RESETTING` trace. -/
lemma runAfterReset_no_resetting (p : ℚ) (s : ClientState) (t dtHint : ℚ) :
    TraceEvent.resetting ∉ (runAfterReset p s t dtHint).traces := by
  simp only [runAfterReset]
  split <;>
  · intro hmem
    rcases List.mem_append.mp hmem with h | h
    · rcases List.mem_map.mp h with ⟨c, _, hc⟩
      exact TraceEvent.noConfusion hc
    · simp only [List.mem_cons, List.not_mem_nil, or_false] at h
      first
      | exact TraceEvent.noConfusion h
      | rcases h with h | h <;> exact TraceEvent.noConfusion h

/-- After the loop-and-branches part of a tick the correction is
nonnegative, whatever it was before (for `0 < p`). -/
lemma runAfterReset_correction_nonneg (p : ℚ) (s : ClientState) (t dtHint : ℚ)
    (hp : 0 < p) : 0 ≤ (runAfterReset p s t dtHint).state.correction := by
  simp only [runAfterReset]
  split
  · dsimp
    linarith
  · dsimp
    have := catchUpLoop_exit p t s.lastStepTime s.correction hp
    linarith

/-- Every `dt` emitted by the loop-and-branches part of a tick is
nonnegative, provided the incoming correction is (for `0 < p`). -/
lemma runAfterReset_dt_nonneg (p : ℚ) (s : ClientState) (t dtHint : ℚ)
    (hp : 0 < p) (hc : 0 ≤ s.correction) :
    ∀ c ∈ (runAfterReset p s t dtHint).calls, 0 ≤ c.dt := by
  have hloop := catchUpLoop_dt_nonneg p t s.lastStepTime s.correction hp hc
  have hcorr := catchUpLoop_corr p t s.lastStepTime s.correction
  simp only [runAfterReset]
  split
  · intro c hmem
    rcases List.mem_append.mp hmem with h | h
    · exact hloop c h
    · simp only [List.mem_cons, List.not_mem_nil, or_false] at h
      rw [h]
      dsimp
      split
      · exact le_refl 0
      · linarith
  · rename_i hlt
    intro c hmem
    rcases List.mem_append.mp hmem with h | h
    · exact hloop c h
    · simp only [List.mem_cons, List.not_mem_nil, or_false] at h
      rw [h]
      dsimp
      rcases hcorr with hco | hco <;> rw [hco] <;> push_neg at hlt <;> linarith

/-- After any completed tick the correction is nonnegative (for `0 < p`). -/
lemma runClientStep_correction_nonneg (p : ℚ) (s : ClientState) (t dtHint : ℚ)
    (hp : 0 < p) : 0 ≤ (runClientStep p s t dtHint).state.correction := by
  simp only [runClientStep]
  split
  · exact runAfterReset_correction_nonneg p _ t dtHint hp
  · exact runAfterReset_correction_nonneg p s t dtHint hp

/-- Every `dt` emitted by a tick is nonnegative, provided the incoming
correction is (for `0 < p`). -/
lemma runClientStep_dt_nonneg (p : ℚ) (s : ClientState) (t dtHint : ℚ)
    (hp : 0 < p) (hc : 0 ≤ s.correction) :
    ∀ c ∈ (runClientStep p s t dtHint).calls, 0 ≤ c.dt := by
  simp only [runClientStep]
  split
  · exact runAfterReset_dt_nonneg p _ t dtHint hp (by dsimp; linarith)
  · exact runAfterReset_dt_nonneg p s t dtHint hp hc

/-! ### Lemmas about the fallible models -/

/-- Unfolding the fallible loop when the guard holds. -/
lemma catchUpLoopE_pos (failing : StepCall → Bool) {p t lst : ℚ} (corr : ℚ)
    (h1 : lst + p < t) (h2 : 0 < p) :
    catchUpLoopE failing p t lst corr =
      (if failing ⟨lst + p, p + corr, false⟩ then Except.error ()
       else match catchUpLoopE failing p t (lst + p) 0 with
            | Except.error e => Except.error e
            | Except.ok r =>
              Except.ok (r.1, r.2.1,
                (⟨lst + p, p + corr, false⟩ : StepCall) :: r.2.2)) := by
  rw [catchUpLoopE]
  simp only [dif_pos (And.intro h1 h2)]

/-- Unfolding the fallible loop when the guard fails. -/
lemma catchUpLoopE_neg (failing : StepCall → Bool) {p t lst : ℚ} (corr : ℚ)
    (h : ¬(lst + p < t ∧ 0 < p)) :
    catchUpLoopE failing p t lst corr = Except.ok (lst, corr, []) := by
  rw [catchUpLoopE]
  simp only [dif_neg h]

/-- When no iteration fails, the fallible loop computes exactly what the
plain loop computes. -/
lemma catchUpLoopE_ok (failing : StepCall → Bool) (hf : ∀ c, failing c = false)
    (p t lst corr : ℚ) :
    catchUpLoopE failing p t lst corr = Except.ok (catchUpLoop p t lst corr) := by
  induction lst, corr using catchUpLoopE.induct failing p t with
  | case1 lst corr hg hfail =>
    rw [hf] at hfail
    exact absurd hfail Bool.false_ne_true
  | case2 lst corr hg hfail e herr ih =>
    rw [ih] at herr
    exact Except.noConfusion herr
  | case3 lst corr hg hfail r hok ih =>
    rw [catchUpLoopE_pos failing corr hg.1 hg.2, catchUpLoop_pos corr hg.1 hg.2]
    rw [hf, ih]
    rfl
  | case4 lst corr hg =>
    rw [catchUpLoopE_neg failing corr hg, catchUpLoop_neg corr hg]

/-- When the step-function collaborator never throws, the exceptional tick
computes exactly the plain tick, wrapped in `Except.ok`. -/
lemma runClientStepE_ok (throws : ℚ → ℚ → Bool → Bool)
    (h : ∀ a b c, throws a b c = false) (p : ℚ) (s : ClientState) (t dtHint : ℚ) :
    runClientStepE throws p s t dtHint = Except.ok (runClientStep p s t dtHint) := by
  simp only [runClientStepE, runClientStep, runAfterReset, h]
  rw [catchUpLoopE_ok (fun _ => false) (fun _ => rfl)]
  by_cases hfire : s.doReset = true ∨ t > s.lastStepTime + TIME_RESET_THRESHOLD
  · simp only [if_pos hfire]
    split <;> simp
  · simp only [if_neg hfire]
    split <;> simp

/-- With the trace collaborator present, the trace-aware tick computes
exactly the plain tick, wrapped in `Except.ok`. -/
lemma runClientStepT_present (p : ℚ) (s : ClientState) (t dtHint : ℚ) :
    runClientStepT true p s t dtHint = Except.ok (runClientStep p s t dtHint) := by
  simp only [runClientStepT, runClientStep, runAfterReset,
    catchUpLoopE_ok (fun _ => !true) (fun _ => rfl)]
  by_cases hfire : s.doReset = true ∨ t > s.lastStepTime + TIME_RESET_THRESHOLD
  · simp only [hfire, if_pos hfire, and_false, if_false, if_true, iff_true]
    simp only [show (true = false) = False by simp, and_false, if_false]
    split <;> simp
  · simp only [if_neg hfire]
    simp only [show (true = false) = False by simp, and_false, if_false]
    split <;> simp

/-- Branch structure of a tick after the reset check: the early no-step
branch and the normal branch are mutually exclusive and one of them always
runs; a nonempty catch-up burst is always followed by the normal branch. -/
lemma runAfterReset_branch (p : ℚ) (s : ClientState) (t dtHint : ℚ) :
    (TraceEvent.nostep ∈ (runAfterReset p s t dtHint).traces ↔
      TraceEvent.drawing ∉ (runAfterReset p s t dtHint).traces) ∧
    (TraceEvent.extra ∈ (runAfterReset p s t dtHint).traces →
      TraceEvent.drawing ∈ (runAfterReset p s t dtHint).traces) := by
  simp only [runAfterReset]
  split
  · rename_i hlt
    constructor
    · simp
    · intro hextra
      exfalso
      simp only [List.mem_append, List.mem_map] at hextra
      rcases hextra with ⟨c, hc, _⟩ | hmem
      · have hne : (catchUpLoop p t s.lastStepTime s.correction).2.2 ≠ [] :=
          List.ne_nil_of_mem hc
        have := catchUpLoop_ne_nil p t s.lastStepTime s.correction hne
        linarith
      · simp at hmem
  · constructor
    · simp
    · intro _
      simp

/-! ### Claim theorems -/

/-- C1 counterexample: the claim says that with no pending reset and
`lastStepTime + RESET_THRESHOLD < t ≤ lastStepTime + period +
RESET_THRESHOLD` no reset occurs, but at `period = 16`, `lastStepTime = 0`,
`correction = 0`, `t = 110` (inside that window) the tick does reset: the
`RESETTING` trace fires, because the code's threshold (Renderer.js line 70)
is `lastStepTime + TIME_RESET_THRESHOLD`, without the period. -/
theorem c1_counterexample :
    (ClientState.mk 0 0 false).doReset = false ∧
    (ClientState.mk 0 0 false).lastStepTime + TIME_RESET_THRESHOLD < 110 ∧
    (110 : ℚ) ≤ (ClientState.mk 0 0 false).lastStepTime + 16 + TIME_RESET_THRESHOLD ∧
    TraceEvent.resetting ∈ (runClientStep 16 ⟨0, 0, false⟩ 110 0).traces := by
  refine ⟨rfl, by norm_num [TIME_RESET_THRESHOLD],
    by norm_num [TIME_RESET_THRESHOLD], ?_⟩
  have h : runClientStep 16 ⟨0, 0, false⟩ 110 0 =
      ⟨⟨118, 8, false⟩, [⟨110, 16, false⟩],
        [TraceEvent.resetting, TraceEvent.drawing, TraceEvent.done]⟩ := by
    norm_num [runClientStep, runAfterReset, catchUpLoop_pos, catchUpLoop_neg,
      TIME_RESET_THRESHOLD]
  rw [h]
  simp

/-- C1 (amended): a reset is triggered on a tick `onTick(t, _)` exactly
when the external reset flag is pending or `t` exceeds
`lastStepTime + RESET_THRESHOLD`; the period is not part of the threshold.
In particular, with no pending reset and `t ≤ lastStepTime +
RESET_THRESHOLD`, no reset occurs.  Reset occurrence is observable as the
`RESETTING` trace of the tick. -/
theorem c1_reset_iff (p : ℚ) (s : ClientState) (t dtHint : ℚ) :
    TraceEvent.resetting ∈ (runClientStep p s t dtHint).traces ↔
      (s.doReset = true ∨ t > s.lastStepTime + TIME_RESET_THRESHOLD) := by
  simp only [runClientStep]
  split
  · rename_i h
    exact iff_of_true (List.mem_cons_self _ _) h
  · rename_i h
    exact iff_of_false (runAfterReset_no_resetting p s t dtHint) h

/-- C2: if a reset fires on a tick (pending flag, or threshold exceeded),
the scheduler first sets `lastStepTime = t - period/2` and
`correction = period/2` and clears the pending flag, and only then runs the
loop and step branches: the whole tick behaves as `runAfterReset` started
from the re-centered, cleared state, and the flag is clear on return. -/
theorem c2_reset_recenter (p : ℚ) (s : ClientState) (t dtHint : ℚ)
    (h : s.doReset = true ∨ t > s.lastStepTime + TIME_RESET_THRESHOLD) :
    runClientStep p s t dtHint =
      { state := (runAfterReset p ⟨t - p / 2, p / 2, false⟩ t dtHint).state
        calls := (runAfterReset p ⟨t - p / 2, p / 2, false⟩ t dtHint).calls
        traces := TraceEvent.resetting ::
          (runAfterReset p ⟨t - p / 2, p / 2, false⟩ t dtHint).traces } ∧
    (runClientStep p s t dtHint).state.doReset = false := by
  constructor
  · simp only [runClientStep, if_pos h]
  · simp only [runClientStep, if_pos h]
    exact runAfterReset_doReset p ⟨t - p / 2, p / 2, false⟩ t dtHint

/-- C2 witness: a concrete tick with the reset flag pending. -/
theorem c2_witness :
    ((ClientState.mk 0 0 true).doReset = true ∨
      (10 : ℚ) > (ClientState.mk 0 0 true).lastStepTime + TIME_RESET_THRESHOLD) ∧
    (runClientStep 16 ⟨0, 0, true⟩ 10 0 =
      { state := (runAfterReset 16 ⟨10 - 16 / 2, 16 / 2, false⟩ 10 0).state
        calls := (runAfterReset 16 ⟨10 - 16 / 2, 16 / 2, false⟩ 10 0).calls
        traces := TraceEvent.resetting ::
          (runAfterReset 16 ⟨10 - 16 / 2, 16 / 2, false⟩ 10 0).traces } ∧
      (runClientStep 16 ⟨0, 0, true⟩ 10 0).state.doReset = false) :=
  ⟨Or.inl rfl, c2_reset_recenter 16 ⟨0, 0, true⟩ 10 0 (Or.inl rfl)⟩

/-- C3: from `period = 16`, `lastStepTime = 0`, `correction = 0`, no
pending reset, the tick `onTick(t = 100, _)` runs the catch-up loop
exactly 6 times, each step with `dt = 16` (the first `16 + 0`), leaving
`lastStepTime = 96` and `correction = 0` after the loop, and then performs
exactly one normal-branch step with `dt = t - lastStepTime + correction =
4`. -/
theorem c3_catchup_count :
    catchUpLoop 16 100 0 0 =
      (96, 0, [⟨16, 16, false⟩, ⟨32, 16, false⟩, ⟨48, 16, false⟩,
        ⟨64, 16, false⟩, ⟨80, 16, false⟩, ⟨96, 16, false⟩]) ∧
    runClientStep 16 ⟨0, 0, false⟩ 100 0 =
      ⟨⟨112, 12, false⟩,
        [⟨16, 16, false⟩, ⟨32, 16, false⟩, ⟨48, 16, false⟩, ⟨64, 16, false⟩,
          ⟨80, 16, false⟩, ⟨96, 16, false⟩, ⟨100, 4, false⟩],
        [TraceEvent.extra, TraceEvent.extra, TraceEvent.extra, TraceEvent.extra,
          TraceEvent.extra, TraceEvent.extra, TraceEvent.drawing,
          TraceEvent.done]⟩ := by
  constructor
  · norm_num [catchUpLoop_pos, catchUpLoop_neg]
  · norm_num [runClientStep, runAfterReset, catchUpLoop_pos, catchUpLoop_neg,
      TIME_RESET_THRESHOLD]

/-- C4: across any sequence of ticks with non-decreasing timestamps,
starting from a state with nonnegative correction (a fresh scheduler
starts at 0) and positive period, every `dt` passed to the step function —
catch-up (`period + correction`), early (clamped), and normal
(`t - lastStepTime + correction`) — is nonnegative. -/
theorem c4_dt_nonneg (p : ℚ) (s : ClientState) (ts : List ℚ) (hp : 0 < p)
    (hc : 0 ≤ s.correction) (hmono : List.Chain' (· ≤ ·) ts) :
    ∀ c ∈ (runTicks p s ts).2, 0 ≤ c.dt := by
  induction ts generalizing s with
  | nil =>
    intro c hc'
    simp [runTicks] at hc'
  | cons t ts ih =>
    intro c hc'
    simp only [runTicks, List.mem_append] at hc'
    rcases hc' with h | h
    · exact runClientStep_dt_nonneg p s t 0 hp hc c h
    · exact ih (runClientStep p s t 0).state
        (runClientStep_correction_nonneg p s t 0 hp) hmono.tail c h

/-- C4 witness: a concrete two-tick run. -/
theorem c4_witness :
    0 < (16 : ℚ) ∧ 0 ≤ (ClientState.mk 0 0 false).correction ∧
    List.Chain' (· ≤ ·) [(10 : ℚ), 20] ∧
    ∀ c ∈ (runTicks 16 ⟨0, 0, false⟩ [10, 20]).2, 0 ≤ c.dt :=
  ⟨by norm_num, le_refl 0, by norm_num [List.chain'_cons, List.chain'_singleton],
    c4_dt_nonneg 16 ⟨0, 0, false⟩ [10, 20] (by norm_num) (le_refl 0)
      (by norm_num [List.chain'_cons, List.chain'_singleton])⟩

/-- C5 counterexample: at `period = 300`, `lastStepTime = 0`,
`correction = 0`, no pending reset, `t = 200` satisfies
`lastStepTime ≤ t < lastStepTime + period`, yet the tick does not behave
as the claim states: the timeout reset fires (200 > 0 + 100), a single
step runs with `dt = 300` instead of `t - lastStepTime + correction = 200`,
and `lastStepTime` advances to 350, not by exactly one period to 300. -/
theorem c5_counterexample :
    (ClientState.mk 0 0 false).doReset = false ∧
    (ClientState.mk 0 0 false).lastStepTime ≤ 200 ∧
    (200 : ℚ) < (ClientState.mk 0 0 false).lastStepTime + 300 ∧
    runClientStep 300 ⟨0, 0, false⟩ 200 0 =
      ⟨⟨350, 150, false⟩, [⟨200, 300, false⟩],
        [TraceEvent.resetting, TraceEvent.drawing, TraceEvent.done]⟩ ∧
    (350 : ℚ) ≠ (ClientState.mk 0 0 false).lastStepTime + 300 ∧
    (300 : ℚ) ≠ 200 - (ClientState.mk 0 0 false).lastStepTime +
      (ClientState.mk 0 0 false).correction := by
  refine ⟨rfl, by norm_num, by norm_num, ?_, by norm_num, by norm_num⟩
  norm_num [runClientStep, runAfterReset, catchUpLoop_pos, catchUpLoop_neg,
    TIME_RESET_THRESHOLD]

/-- C5 (amended): for every `t` with `lastStepTime ≤ t < lastStepTime +
period` and additionally `t ≤ lastStepTime + RESET_THRESHOLD` (so the
timeout reset cannot fire; automatic whenever `period ≤ RESET_THRESHOLD`),
and no pending reset, a single tick takes the normal branch only: it
invokes the step function exactly once with `dt = t - lastStepTime +
correction`, advances `lastStepTime` by exactly `period`, and leaves
`correction` equal to the new `lastStepTime` minus `t`. -/
theorem c5_defer (p : ℚ) (s : ClientState) (t dtHint : ℚ)
    (hr : s.doReset = false) (h1 : s.lastStepTime ≤ t)
    (h2 : t < s.lastStepTime + p)
    (h3 : t ≤ s.lastStepTime + TIME_RESET_THRESHOLD) :
    runClientStep p s t dtHint =
      ⟨⟨s.lastStepTime + p, s.lastStepTime + p - t, false⟩,
        [⟨t, t - s.lastStepTime + s.correction, false⟩],
        [TraceEvent.drawing, TraceEvent.done]⟩ := by
  have hfire : ¬(s.doReset = true ∨ t > s.lastStepTime + TIME_RESET_THRESHOLD) := by
    rintro (hb | hgt)
    · rw [hr] at hb
      exact Bool.false_ne_true hb
    · linarith
  have hg : ¬(s.lastStepTime + p < t ∧ 0 < p) := fun hcon => absurd hcon.1 (by linarith)
  simp only [runClientStep, if_neg hfire, runAfterReset, catchUpLoop_neg s.correction hg]
  rw [if_neg (not_lt.mpr h1), hr]
  simp

/-- C5 witness: a concrete in-window tick with small period. -/
theorem c5_witness :
    (ClientState.mk 0 3 false).doReset = false ∧
    (ClientState.mk 0 3 false).lastStepTime ≤ 10 ∧
    (10 : ℚ) < (ClientState.mk 0 3 false).lastStepTime + 16 ∧
    (10 : ℚ) ≤ (ClientState.mk 0 3 false).lastStepTime + TIME_RESET_THRESHOLD ∧
    runClientStep 16 ⟨0, 3, false⟩ 10 0 =
      ⟨⟨16, 6, false⟩, [⟨10, 13, false⟩],
        [TraceEvent.drawing, TraceEvent.done]⟩ := by
  refine ⟨rfl, by norm_num, by norm_num, by norm_num [TIME_RESET_THRESHOLD], ?_⟩
  have h := c5_defer 16 ⟨0, 3, false⟩ 10 0 rfl (by norm_num) (by norm_num)
    (by norm_num [TIME_RESET_THRESHOLD])
  rw [h]
  norm_num

/-- C6 counterexample: the tick `onTick(100, _)` from `period = 16`,
`lastStepTime = 0`, `correction = 0` performs a nonempty catch-up burst
(`EXTRA` traces) *and* a normal-branch step (`DRAWING` trace) — with 7
step invocations in total — so a catch-up burst and a normal step do occur
within the same tick, refuting "at most one of the three actions". -/
theorem c6_counterexample :
    TraceEvent.extra ∈ (runClientStep 16 ⟨0, 0, false⟩ 100 0).traces ∧
    TraceEvent.drawing ∈ (runClientStep 16 ⟨0, 0, false⟩ 100 0).traces ∧
    1 < (runClientStep 16 ⟨0, 0, false⟩ 100 0).calls.length := by
  have h : runClientStep 16 ⟨0, 0, false⟩ 100 0 =
      ⟨⟨112, 12, false⟩,
        [⟨16, 16, false⟩, ⟨32, 16, false⟩, ⟨48, 16, false⟩, ⟨64, 16, false⟩,
          ⟨80, 16, false⟩, ⟨96, 16, false⟩, ⟨100, 4, false⟩],
        [TraceEvent.extra, TraceEvent.extra, TraceEvent.extra, TraceEvent.extra,
          TraceEvent.extra, TraceEvent.extra, TraceEvent.drawing,
          TraceEvent.done]⟩ := by
    norm_num [runClientStep, runAfterReset, catchUpLoop_pos, catchUpLoop_neg,
      TIME_RESET_THRESHOLD]
  rw [h]
  refine ⟨by simp, by simp, by simp⟩

/-- C6 (amended): each tick performs a possibly-empty catch-up burst
followed by exactly one of {early no-step invocation, normal step}: the
early invocation and the normal step are mutually exclusive, and a
nonempty catch-up burst is always followed by the normal step (never by
the early invocation) — so catch-up and normal do co-occur whenever the
burst is nonempty, while catch-up and early never co-occur. -/
theorem c6_branch_exclusivity (p : ℚ) (s : ClientState) (t dtHint : ℚ) :
    (TraceEvent.nostep ∈ (runClientStep p s t dtHint).traces ↔
      TraceEvent.drawing ∉ (runClientStep p s t dtHint).traces) ∧
    (TraceEvent.extra ∈ (runClientStep p s t dtHint).traces →
      TraceEvent.drawing ∈ (runClientStep p s t dtHint).traces) := by
  simp only [runClientStep]
  split
  · have hb := runAfterReset_branch p ⟨t - p / 2, p / 2, false⟩ t dtHint
    simpa using hb
  · exact runAfterReset_branch p s t dtHint

/-- C7: in any scheduler mode other than `render-schedule`, the tick entry
point `draw` is a complete no-op for every `t`, `dtHint` and prior state:
no step invocation, no trace, and the clock state — including a pending
reset flag — is unchanged. -/
theorem c7_mode_gate (opts : Options) (s : ClientState) (t dtHint : ℚ)
    (h : opts.scheduler ≠ "render-schedule") :
    draw opts s t dtHint = ⟨s, [], []⟩ := by
  simp only [draw, if_neg h]

/-- C7 witness: a concrete externally-scheduled configuration with a
pending reset flag, which stays pending. -/
theorem c7_witness :
    (Options.mk "fixed" 16).scheduler ≠ "render-schedule" ∧
    draw ⟨"fixed", 16⟩ ⟨5, -3, true⟩ 1000 7 = ⟨⟨5, -3, true⟩, [], []⟩ :=
  ⟨by simp, c7_mode_gate ⟨"fixed", 16⟩ ⟨5, -3, true⟩ 1000 7 (by simp)⟩

/-- C8 counterexample: with a step-function collaborator that throws, the
tick `onTick(50, _)` from `period = 16`, `lastStepTime = 0` propagates the
failure to its caller (`Except.error`), rather than reporting it via the
DiagnosticsSink: the source has no try/catch around the step calls. -/
theorem c8_counterexample :
    runClientStepE (fun _ _ _ => true) 16 ⟨0, 0, false⟩ 50 0 =
      Except.error () := by
  norm_num [runClientStepE, catchUpLoopE_pos, TIME_RESET_THRESHOLD]

/-- C8 (amended): `onTick` returns no value; a failure raised by the
step-function collaborator is propagated to the caller (it is not caught,
and not reported via the DiagnosticsSink), and when the collaborator never
throws the tick itself never fails and behaves exactly as the plain
scheduler. -/
theorem c8_no_throw_ok (throws : ℚ → ℚ → Bool → Bool) (p : ℚ)
    (s : ClientState) (t dtHint : ℚ) (h : ∀ a b c, throws a b c = false) :
    runClientStepE throws p s t dtHint =
      Except.ok (runClientStep p s t dtHint) :=
  runClientStepE_ok throws h p s t dtHint

/-- C8 witness: a concrete non-throwing collaborator. -/
theorem c8_witness :
    (∀ (a b : ℚ) (c : Bool),
      (fun (_ : ℚ) (_ : ℚ) (_ : Bool) => false) a b c = false) ∧
    runClientStepE (fun _ _ _ => false) 16 ⟨0, 0, false⟩ 10 0 =
      Except.ok (runClientStep 16 ⟨0, 0, false⟩ 10 0) :=
  ⟨fun _ _ _ => rfl,
    c8_no_throw_ok (fun _ _ _ => false) 16 ⟨0, 0, false⟩ 10 0 (fun _ _ _ => rfl)⟩

/-- C9: the claim that the DiagnosticsSink is optional fails on the code —
every branch of `runClientStep` calls `gameEngine.trace.trace(...)`
unconditionally (lines the source itself marks `HACK: remove next line`),
so with the trace collaborator absent the tick `onTick(50, _)` from
`period = 16`, `lastStepTime = 0` fails before invoking any step, instead
of reproducing the with-collaborator behavior; with the collaborator
present the trace calls are purely observational: the tick computes
exactly the plain scheduling result. -/
theorem c9_trace_not_optional :
    runClientStepT false 16 ⟨0, 0, false⟩ 50 0 = Except.error () ∧
    ∀ (p : ℚ) (s : ClientState) (t dtHint : ℚ),
      runClientStepT true p s t dtHint =
        Except.ok (runClientStep p s t dtHint) := by
  constructor
  · norm_num [runClientStepT, catchUpLoopE_pos, TIME_RESET_THRESHOLD]
  · exact runClientStepT_present

/-- C10: for every completed tick with positive period, the `correction`
field is nonnegative on return in every branch: the catch-up loop resets
it to 0, the early branch sets it to `lastStepTime - t` with
`t < lastStepTime`, and the normal branch sets it to `lastStepTime +
period - t` with `t ≤ lastStepTime + period` guaranteed by the loop's exit
condition. -/
theorem c10_correction_nonneg (p : ℚ) (s : ClientState) (t dtHint : ℚ)
    (hp : 0 < p) : 0 ≤ (runClientStep p s t dtHint).state.correction :=
  runClientStep_correction_nonneg p s t dtHint hp

/-- C10 witness: a concrete tick starting from a negative correction. -/
theorem c10_witness :
    0 < (16 : ℚ) ∧ 0 ≤ (runClientStep 16 ⟨0, -5, true⟩ 42 0).state.correction :=
  ⟨by norm_num, c10_correction_nonneg 16 ⟨0, -5, true⟩ 42 0 (by norm_num)⟩

end Lance
